import Mathlib

/-!
# Verification of the Steam gaming-analysis ETL pipeline

Shallow embedding of the session-synthesis pipeline
(`src/utils.py`, `src/simple_etl.py`, `src/simulate_sessions.py`,
`src/etl/generate_sessions.py`, `src/etl/pipeline.py`) and proofs of the
spec claims about it.  Machine integers are modelled as `Int`/`Nat`,
Python/numpy floats as `Rat` (exact arithmetic stands in for IEEE doubles:
every claim here is about structural behaviour, not rounding of binary
floats), strings as Lean `String` over their character lists (Python's
Unicode-aware `str.lower` is modelled on its ASCII fragment, which is the
only fragment the pipeline's column headers exercise).
-/

/-! ## Python primitive models -/

/-- Python `int(x)` on a real value: truncation toward zero. -/
def pyTrunc (q : ℚ) : ℤ :=
  if 0 ≤ q then ⌊q⌋ else ⌈q⌉

/-- `np.clip(x, lo, hi)`. -/
def clampQ (q lo hi : ℚ) : ℚ :=
  max lo (min hi q)

/-- numpy / pandas `.round()`: round half to even (banker's rounding). -/
def roundHalfEven (q : ℚ) : ℤ :=
  if q - ⌊q⌋ < 1/2 then ⌊q⌋
  else if 1/2 < q - ⌊q⌋ then ⌊q⌋ + 1
  else if (⌊q⌋ : ℤ) % 2 = 0 then ⌊q⌋ else ⌊q⌋ + 1

/-- The whitespace set of Python's `str.strip` / regex `\s` (ASCII fragment). -/
def pyIsSpace (c : Char) : Bool :=
  c = ' ' || c = '\t' || c = '\n' || c = '\x0d' || c = '\x0b' || c = '\x0c'

/-- Python `str.strip()` on a character list: drop whitespace at both ends. -/
def pyStripL (l : List Char) : List Char :=
  ((l.dropWhile pyIsSpace).reverse.dropWhile pyIsSpace).reverse

/-- Python `s.replace('"', '')`: delete every double-quote character. -/
def dequoteL (l : List Char) : List Char :=
  l.filter (fun c => c ≠ '\x22')

/-- `re.sub(pattern-of-p, '_', s)`: collapse every maximal run of characters
satisfying `p` to a single underscore.  `inRun` records whether the previous
character was part of such a run. -/
def collapseRuns (p : Char → Bool) : Bool → List Char → List Char
  | _, [] => []
  | inRun, c :: cs =>
    if p c then
      if inRun then collapseRuns p true cs
      else '_' :: collapseRuns p true cs
    else c :: collapseRuns p false cs

/-- Python `str.lower` on the ASCII fragment: map A–Z to a–z. -/
def pyLowerChar (c : Char) : Char :=
  if 'A' ≤ c ∧ c ≤ 'Z' then Char.ofNat (c.toNat + 32) else c

/-- Python `str.lower` over a character list. -/
def pyLowerL (l : List Char) : List Char :=
  l.map pyLowerChar

/-! ## `src/utils.py` : `clean_column_name`

```python
def clean_column_name(name):
    name = name.replace('"', '').strip()
    name = re.sub(r'\s+', '_', name)
    return name.lower()
```
`src/simple_etl.py`'s `clean_column` is character-for-character the same
function, so one embedding covers both. -/

/-- `clean_column_name` from `src/utils.py` (identically `clean_column` from
`src/simple_etl.py`). -/
def clean_column_name (s : String) : String :=
  String.mk (pyLowerL (collapseRuns pyIsSpace false (pyStripL (dequoteL s.data))))

/-! ## `src/etl/generate_sessions.py` line 89 column normalization

```python
df.columns = df.columns.str.strip().str.lower().str.replace(r'[\s\-]+', '_', regex=True)
```
-/

/-- Character class `[\s\-]` of the pandas normalization. -/
def isSpaceOrHyphen (c : Char) : Bool :=
  pyIsSpace c || c = '-'

/-- The column normalization applied by `_load_and_standardize_game_data`
(`src/etl/generate_sessions.py`, line 89): strip, lowercase, collapse
whitespace/hyphen runs to `_`.  Unlike `clean_column_name` it removes no
quote characters. -/
def pandasCleanColumn (s : String) : String :=
  String.mk (collapseRuns isSpaceOrHyphen false (pyLowerL (pyStripL s.data)))

/-! ## `src/utils.py` : `clean_numeric_string`

```python
def clean_numeric_string(value):
    if isinstance(value, (int, float)):
        return value
    if isinstance(value, str):
        cleaned_value = value.replace('"', '').replace(',', '')
        try:
            if '.' in cleaned_value:
                return float(cleaned_value)
            else:
                return int(cleaned_value)
        except ValueError:
            return pd.NA
    return pd.NA
```
-/

/-- A dynamically typed cell value as the cleaner sees it: Python `int`,
Python `float`, Python `str`, or the pandas missing sentinel `pd.NA`. -/
inductive PyVal where
  | int (n : ℤ)
  | float (q : ℚ)
  | str (s : String)
  | na
deriving DecidableEq, Repr

/-- ASCII decimal digit test. -/
def isDigitCh (c : Char) : Bool :=
  '0' ≤ c && c ≤ '9'

/-- Value of an ASCII digit character. -/
def digitVal (c : Char) : ℕ :=
  c.toNat - 48

/-- Decode a digit list as a natural number, most significant digit first. -/
def decodeDigits (l : List Char) : ℕ :=
  l.foldl (fun a c => 10 * a + digitVal c) 0

/-- Model of Python `int(s)` for the cleaned strings the cleaner feeds it:
optional surrounding whitespace, optional sign, then a nonempty run of ASCII
digits; anything else raises `ValueError`, modelled as `none`.  (Python's
underscore digit-grouping is not modelled.) -/
def pyParseInt (s : String) : Option ℤ :=
  let l := pyStripL s.data
  match l with
  | '-' :: rest =>
    if rest ≠ [] ∧ rest.all isDigitCh then some (-(decodeDigits rest : ℤ)) else none
  | '+' :: rest =>
    if rest ≠ [] ∧ rest.all isDigitCh then some (decodeDigits rest : ℤ) else none
  | rest =>
    if rest ≠ [] ∧ rest.all isDigitCh then some (decodeDigits rest : ℤ) else none

/-- Split a character list at the first `'.'`; `none` when no dot occurs. -/
def splitAtDot : List Char → Option (List Char × List Char)
  | [] => none
  | c :: cs =>
    if c = '.' then some ([], cs)
    else match splitAtDot cs with
      | some (a, b) => some (c :: a, b)
      | none => none

/-- Model of Python `float(s)` for strings that contain a decimal point
(the only strings the cleaner sends to `float`): optional whitespace and
sign, digits, `'.'`, digits — at least one digit overall, no exponent part
(the pipeline's inputs carry none); anything else is `ValueError`/`none`. -/
def pyParseFloat (s : String) : Option ℚ :=
  let l := pyStripL s.data
  let signed : List Char → Option ℚ := fun body =>
    match splitAtDot body with
    | none => none
    | some (ip, fp) =>
      if (ip ≠ [] ∨ fp ≠ []) ∧ ip.all isDigitCh ∧ fp.all isDigitCh ∧ fp.length ≤ 40 then
        some ((decodeDigits ip : ℚ) + (decodeDigits fp : ℚ) / (10 ^ fp.length : ℕ))
      else none
  match l with
  | '-' :: rest => (signed rest).map (fun q => -q)
  | '+' :: rest => signed rest
  | rest => signed rest

/-- `value.replace('"', '').replace(',', '')`. -/
def stripQuotesCommas (s : String) : String :=
  String.mk (s.data.filter (fun c => c ≠ '\x22' ∧ c ≠ ','))

/-- `clean_numeric_string` from `src/utils.py` (identically `clean_numeric`
from `src/simple_etl.py`): numeric values pass through unchanged; strings are
stripped of quotes and commas, then parsed as `int` when no `'.'` is present
and as `float` otherwise; a parse failure or a non-numeric non-string input
yields the missing sentinel `pd.NA`. -/
def clean_numeric_string (v : PyVal) : PyVal :=
  match v with
  | .int n => .int n
  | .float q => .float q
  | .str s =>
    let cleaned := stripQuotesCommas s
    if '.' ∈ cleaned.data then
      match pyParseFloat cleaned with
      | some q => .float q
      | none => .na
    else
      match pyParseInt cleaned with
      | some n => .int n
      | none => .na
  | .na => .na

/-! ## `src/etl/generate_sessions.py` : `_clean_numeric_column`

```python
return (series.astype(str)
        .str.replace('[^0-9]', '', regex=True)
        .replace('', '0')
        .astype(int))
```
Per cell: delete every non-digit character; a cell that becomes empty is
replaced by `'0'`; the result is parsed as an integer. -/

/-- The per-cell action of `_clean_numeric_column`
(`src/etl/generate_sessions.py`, lines 38–53). -/
def cleanNumericCell (s : String) : ℤ :=
  let digits := s.data.filter isDigitCh
  if digits = [] then 0 else (decodeDigits digits : ℤ)

/-! ## Decimal rendering of counters (Python `f"user_{n}"`, `f'USER_{i:04d}'`) -/

/-- The ASCII digit character of `n` (meaningful for `n < 10`). -/
def digitChar10 (n : ℕ) : Char :=
  Char.ofNat (48 + n)

/-- Base-10 rendering worker; `fuel` bounds the recursion depth (any
`fuel > n` is enough) so the definition is structurally recursive. -/
def natCharsGo (fuel : ℕ) (n : ℕ) : List Char :=
  match fuel with
  | 0 => []
  | f + 1 =>
    if n < 10 then [digitChar10 n]
    else natCharsGo f (n / 10) ++ [digitChar10 (n % 10)]

/-- Base-10 rendering of a natural number, most significant digit first:
the model of Python's decimal formatting of an `int`. -/
def natChars (n : ℕ) : List Char :=
  natCharsGo (n + 1) n

/-- `f'{i:04d}'`: zero-pad the decimal rendering to width 4 on the left. -/
def pad4Chars (n : ℕ) : List Char :=
  List.replicate (4 - (natChars n).length) '0' ++ natChars n

/-- Mode A user identifier `f"user_{user_counter}"`
(`src/simulate_sessions.py`, line 45). -/
def userA (n : ℕ) : String :=
  String.mk ("user_".data ++ natChars n)

/-- Mode B user identifier `f'USER_{i:04d}'`
(`src/etl/generate_sessions.py`, line 192). -/
def userB (n : ℕ) : String :=
  String.mk ("USER_".data ++ pad4Chars n)

/-! ## Random-stream model

Both synthesizers consume library pseudo-random streams (Python `random` in
Mode A, numpy's global generator in Mode B).  The stream is modelled as an
abstract state type `σ` with one deterministic transition per kind of draw,
together with the range guarantees the library documents and the code relies
on.  `seed n` is the state of the global stream right after `np.random.seed(n)`. -/

structure Rng (σ : Type) where
  seed : ℕ → σ
  choiceIdx : σ → ℕ → ℕ × σ
  choiceP : σ → List ℚ → ℕ × σ
  npRandint : σ → ℕ → ℕ × σ
  triangular : σ → ℚ → ℚ → ℚ → ℚ × σ
  normal : σ → ℚ → ℚ → ℚ × σ
  lognormal : σ → ℚ → ℚ → ℚ × σ
  uniform : σ → ℚ → ℚ → ℚ × σ
  gauss : σ → ℚ → ℚ → ℚ × σ
  randintI : σ → ℕ → ℕ → ℕ × σ
  choiceIdx_lt : ∀ g n, 0 < n → (choiceIdx g n).1 < n
  choiceP_lt : ∀ g p, p ≠ [] → (choiceP g p).1 < p.length
  npRandint_lt : ∀ g n, 0 < n → (npRandint g n).1 < n
  uniform_mem : ∀ g a b, a ≤ b → a ≤ (uniform g a b).1 ∧ (uniform g a b).1 ≤ b
  randintI_mem : ∀ g a b, a ≤ b → a ≤ (randintI g a b).1 ∧ (randintI g a b).1 ≤ b

/-! ## Mode B : `_simulate_user_sessions` (`src/etl/generate_sessions.py`, 170–237)

Timestamps are seconds on a timeline whose day 0 is a Monday (so
`weekday = day mod 7` and `is_weekend ↔ weekday ≥ 5`); `StartDate` models the
configured `start_date`: its calendar day plus its seconds-within-minute
component, which `datetime.replace(hour=…, minute=…)` preserves. -/

structure StartDate where
  day : ℤ
  sec : ℕ
deriving DecidableEq

/-- One synthesized Mode B session row. -/
structure SessionRecB where
  user_id : String
  game_id : String
  session_start : ℤ
  session_end : ℤ
  session_duration : ℤ
  day_of_week : String
  hour_of_day : ℕ
deriving DecidableEq

/-- `strftime('%A')` day names, indexed by `day mod 7` with day 0 a Monday. -/
def dayNames : List String :=
  ["Monday", "Tuesday", "Wednesday", "Thursday", "Friday", "Saturday", "Sunday"]

/-- numpy's validity requirement on a probability vector `p`
(`np.random.choice(…, p=probabilities)` raises unless `p` is nonnegative and
sums to 1). -/
def probsValid (p : List ℚ) : Prop :=
  (∀ q ∈ p, 0 ≤ q) ∧ p.sum = 1

instance (p : List ℚ) : Decidable (probsValid p) := by
  unfold probsValid
  infer_instance

/-- One iteration of the Mode B simulation loop.  The branches mirror, in
source order, the exceptions the loop body can raise: the progress-logging
expression `(i + 1) % (target_session_count // 10)` (ZeroDivisionError when
`target // 10 = 0`), `np.random.choice` on an empty user pool, a
`np.random.choice` call with an invalid probability vector, and
`np.random.randint(0, simulation_days)` with an empty range. -/
def simStep (R : Rng σ) (games : List String) (probs : List ℚ)
    (userIds : List String) (numUsers simDays : ℕ) (sd : StartDate)
    (target _i : ℕ) (g : σ) : Except String (SessionRecB × σ) :=
  if target / 10 = 0 then .error "ZeroDivisionError"
  else if numUsers = 0 then .error "ValueError: a must be non-empty"
  else
    let ug := R.choiceIdx g numUsers
    let user := userIds.getD ug.1 ""
    if ¬ probsValid probs then .error "ValueError: invalid probabilities"
    else
      let gg := R.choiceP ug.2 probs
      let game := games.getD gg.1 ""
      if simDays = 0 then .error "ValueError: low >= high"
      else
        let og := R.npRandint gg.2 simDays
        let day := sd.day + og.1
        let isWeekend : Bool := 5 ≤ day.emod 7
        let bg := if isWeekend then R.triangular og.2 12 20 23 else R.normal og.2 19 3
        let hour := (pyTrunc (clampQ bg.1 0 23)).toNat
        let mg := R.npRandint bg.2 59
        let startTs := day * 86400 + hour * 3600 + mg.1 * 60 + sd.sec
        let dg := R.lognormal mg.2 (19/5) 1
        let dur := max 15 (min 600 (pyTrunc dg.1))
        let endTs := startTs + dur * 60
        .ok ({ user_id := user, game_id := game,
               session_start := startTs, session_end := endTs,
               session_duration := dur,
               day_of_week := dayNames.getD (day.emod 7).toNat "",
               hour_of_day := hour }, dg.2)

/-- The Mode B simulation loop: `n` remaining iterations, current index `i`. -/
def simBAux (R : Rng σ) (games : List String) (probs : List ℚ)
    (userIds : List String) (numUsers simDays : ℕ) (sd : StartDate)
    (target : ℕ) : ℕ → ℕ → σ → Except String (List SessionRecB)
  | _, 0, _ => .ok []
  | i, k + 1, g =>
    match simStep R games probs userIds numUsers simDays sd target i g with
    | .error e => .error e
    | .ok rg =>
      match simBAux R games probs userIds numUsers simDays sd target (i + 1) k rg.2 with
      | .error e => .error e
      | .ok rs => .ok (rg.1 :: rs)

/-- `_simulate_user_sessions` (`src/etl/generate_sessions.py`): with an empty
weight mapping it returns an empty frame; otherwise it normalizes the weights
to probabilities, builds the fixed user pool `USER_0001 … USER_{n:04d}`,
reseeds the global numpy stream with 42 (discarding the ambient stream state
`g0`), and runs `target` loop iterations. -/
def simulate_user_sessions (R : Rng σ) (_g0 : σ) (gameWeights : List (String × ℚ))
    (numUsers simDays : ℕ) (sd : StartDate) (target : ℕ) :
    Except String (List SessionRecB) :=
  if gameWeights = [] then .ok []
  else
    let games := gameWeights.map Prod.fst
    let warr := gameWeights.map Prod.snd
    let total := warr.sum
    let probs := warr.map (fun w => w / total)
    let userIds := (List.range numUsers).map (fun i => userB (i + 1))
    simBAux R games probs userIds numUsers simDays sd target 0 target (R.seed 42)

/-! ## Mode A : `src/simulate_sessions.py` `main` loop -/

/-- The Mode A configuration values read from `config.yaml`. -/
structure ConfigA where
  avgSessionDuration : ℚ
  maxSessionsPerDay : ℤ
  sessionDurationMin : ℕ
  sessionDurationMax : ℕ
  sessionCountNoise : ℚ
  sessionPeakHour : ℚ
  sessionPeakStddev : ℚ

/-- One row of the cleaned daily table: game name, calendar day (days since
the timeline epoch, taken at midnight) and aggregate hours played. -/
structure DailyRow where
  game_name : String
  date : ℤ
  hours_played : ℚ

/-- One synthesized Mode A session (timestamps in seconds). -/
structure SessionRecA where
  user_id : String
  game_name : String
  session_start : ℤ
  session_end : ℤ
  duration : ℤ
deriving DecidableEq

/-- The Mode A target session count for one daily record
(`src/simulate_sessions.py`, lines 35–41): estimate `hours·60 / avg`,
perturb by `noiseDraw · estimate` where `noiseDraw` is the
`random.uniform(-SESSION_COUNT_NOISE, SESSION_COUNT_NOISE)` draw, truncate
with `int`, clamp below by 1 and above by `MAX_SESSIONS_PER_DAY`. -/
def numSessionsA (cfg : ConfigA) (hours noiseDraw : ℚ) : ℤ :=
  let totalMinutes := hours * 60
  let est := totalMinutes / cfg.avgSessionDuration
  let est2 := est + noiseDraw * est
  min (max 1 (pyTrunc est2)) cfg.maxSessionsPerDay

/-- The inner Mode A loop (`for _ in range(num_sessions)`): generate `n`
sessions for one daily record, threading the user counter `c` and the random
stream.  Each session mints the fresh identifier `user_{c+1}`, truncates then
clamps a Gaussian start hour into `[0, 23]`, draws minute and second
uniformly in `[0, 59]`, and draws a duration uniformly in
`[SESSION_DURATION_MIN, SESSION_DURATION_MAX]` minutes. -/
def genSessionsA (R : Rng σ) (cfg : ConfigA) (gname : String) (date : ℤ) :
    ℕ → ℕ → σ → List SessionRecA × ℕ × σ
  | 0, c, g => ([], c, g)
  | k + 1, c, g =>
    let c2 := c + 1
    let hg := R.gauss g cfg.sessionPeakHour cfg.sessionPeakStddev
    let startHour := max 0 (min 23 (pyTrunc hg.1))
    let mg := R.randintI hg.2 0 59
    let sg := R.randintI mg.2 0 59
    let startTs := date * 86400 + startHour * 3600 + mg.1 * 60 + sg.1
    let dg := R.randintI sg.2 cfg.sessionDurationMin cfg.sessionDurationMax
    let endTs := startTs + (dg.1 : ℤ) * 60
    let rest := genSessionsA R cfg gname date k c2 dg.2
    ({ user_id := userA c2, game_name := gname,
       session_start := startTs, session_end := endTs,
       duration := (dg.1 : ℤ) } :: rest.1, rest.2)

/-- Processing of one daily record in Mode A: records with
`hours_played ≤ 0` are skipped; otherwise the noise draw perturbs the session
count and that many sessions are generated. -/
def modeARow (R : Rng σ) (cfg : ConfigA) (row : DailyRow) (c : ℕ) (g : σ) :
    List SessionRecA × ℕ × σ :=
  if row.hours_played ≤ 0 then ([], c, g)
  else
    let ng := R.uniform g (-cfg.sessionCountNoise) cfg.sessionCountNoise
    genSessionsA R cfg row.game_name row.date
      (numSessionsA cfg row.hours_played ng.1).toNat c ng.2

/-- The full Mode A row loop of `main` (`src/simulate_sessions.py`), threading
the run-global user counter across records. -/
def modeASessions (R : Rng σ) (cfg : ConfigA) :
    List DailyRow → ℕ → σ → List SessionRecA × ℕ × σ
  | [], c, g => ([], c, g)
  | r :: rs, c, g =>
    let a := modeARow R cfg r c g
    let b := modeASessions R cfg rs a.2.1 a.2.2
    (a.1 ++ b.1, b.2)

/-! ## Mode A variant : `simulate_sessions` (`src/etl/pipeline.py`, 80–120)

The pipeline variant of Mode A applies no noise term and no
`[1, max_sessions_per_day]` clamp: the target count is
`int(hours·60 / AVG_SESSION_DURATION_MINUTES)` and a record whose count is
`≤ 0` is skipped outright (`if num_sessions <= 0: continue`); every session
lasts exactly `AVG_SESSION_DURATION_MINUTES` minutes and starts at a
uniformly random time of day. -/

/-- The pipeline target session count (`src/etl/pipeline.py`, lines 93–94):
`int(total_minutes / AVG_SESSION_DURATION_MINUTES)` — no noise, no clamp. -/
def numSessionsP (avgDur : ℤ) (hours : ℚ) : ℤ :=
  pyTrunc (hours * 60 / (avgDur : ℚ))

/-- The inner pipeline loop (`src/etl/pipeline.py`, lines 98–115): `n`
sessions, each minting a fresh `user_{counter}` identifier, starting at a
uniformly random second of the record's day and lasting exactly `avgDur`
minutes. -/
def genSessionsP (R : Rng σ) (avgDur : ℤ) (gname : String) (date : ℤ) :
    ℕ → ℕ → σ → List SessionRecA × ℕ × σ
  | 0, c, g => ([], c, g)
  | k + 1, c, g =>
    let c2 := c + 1
    let hg := R.randintI g 0 23
    let mg := R.randintI hg.2 0 59
    let sg := R.randintI mg.2 0 59
    let startTs := date * 86400 + (hg.1 : ℤ) * 3600 + (mg.1 : ℤ) * 60 + (sg.1 : ℤ)
    let endTs := startTs + avgDur * 60
    let rest := genSessionsP R avgDur gname date k c2 sg.2
    ({ user_id := userA c2, game_name := gname,
       session_start := startTs, session_end := endTs,
       duration := avgDur } :: rest.1, rest.2)

/-- Processing of one daily record in the pipeline variant
(`src/etl/pipeline.py`, lines 84–115): records with `hours_played ≤ 0` and
records whose unclamped count is `≤ 0` are skipped; otherwise exactly
`num_sessions` sessions are generated, with no upper cap. -/
def pipeline_simulate_row (R : Rng σ) (avgDur : ℤ) (row : DailyRow) (c : ℕ) (g : σ) :
    List SessionRecA × ℕ × σ :=
  if row.hours_played ≤ 0 then ([], c, g)
  else if numSessionsP avgDur row.hours_played ≤ 0 then ([], c, g)
  else genSessionsP R avgDur row.game_name row.date
    (numSessionsP avgDur row.hours_played).toNat c g

/-! ## Cleaning pass : `clean_sessions` (`src/etl/generate_sessions.py`, 293–327) -/

/-- A session DataFrame row as `clean_sessions` sees it.  The string-valued
columns can be missing (`NaN`), which `dropna()` inspects; the timestamp
columns are present in every frame the pipeline produces. -/
structure CRow where
  user_id : Option String
  game_id : Option String
  session_start : ℤ
  session_end : ℤ
  session_duration : ℤ
  day_of_week : Option String
  hour_of_day : Option ℤ
deriving DecidableEq

/-- `((df['session_end'] - df['session_start']).dt.total_seconds() / 60).round()`. -/
def recomputedDuration (r : CRow) : ℤ :=
  roundHalfEven (((r.session_end - r.session_start : ℤ) : ℚ) / 60)

/-- Whether a row survives `dropna()`: no missing field. -/
def noMissing (r : CRow) : Bool :=
  r.user_id.isSome && r.game_id.isSome && r.day_of_week.isSome && r.hour_of_day.isSome

/-- `clean_sessions`: overwrite `session_duration` with the recomputed
rounded minute difference, drop rows whose recomputed duration is not
positive, then drop rows with a missing field. -/
def clean_sessions (rows : List CRow) : List CRow :=
  ((rows.map (fun r => { r with session_duration := recomputedDuration r })).filter
    (fun r => decide (0 < r.session_duration))).filter noMissing

/-! ## Game weights : `_calculate_game_weights` (`src/etl/generate_sessions.py`, 146–167)

The concatenated `(name, peak_players)` rows are grouped by name, the mean
peak count is taken per group, and `rank(method='dense')` (ascending) of the
means is returned as the weight mapping. -/

/-- The distinct game names of the row set, in first-occurrence order. -/
def gameNames (rows : List (String × ℤ)) : List String :=
  (rows.map Prod.fst).dedup

/-- The peak-player figures recorded for one game. -/
def peaksOf (rows : List (String × ℤ)) (g : String) : List ℤ :=
  (rows.filter (fun r => decide (r.1 = g))).map Prod.snd

/-- The arithmetic mean of a game's peak-player figures. -/
def meanPeak (rows : List (String × ℤ)) (g : String) : ℚ :=
  ((peaksOf rows g).sum : ℤ) / ((peaksOf rows g).length : ℚ)

/-- The distinct group means. -/
def distinctMeans (rows : List (String × ℤ)) : List ℚ :=
  ((gameNames rows).map (meanPeak rows)).dedup

/-- `rank(method='dense')`, ascending: the number of distinct group means
that are ≤ the game's own mean. -/
def denseRank (rows : List (String × ℤ)) (g : String) : ℕ :=
  ((distinctMeans rows).filter (fun v => decide (v ≤ meanPeak rows g))).length

/-- `_calculate_game_weights` as a `name → weight` association list: one entry
per distinct game name, whose weight is the dense rank of its mean peak
count.  Empty input yields the empty mapping. -/
def calculate_game_weights (rows : List (String × ℤ)) : List (String × ℚ) :=
  (gameNames rows).map (fun g => (g, (denseRank rows g : ℚ)))

/-! ## Persistence sink : `setup_database` (`src/etl/pipeline.py`, 123–146)

Python's sqlite3 module opens an implicit transaction only before DML
(INSERT/UPDATE/DELETE/REPLACE); the `DROP TABLE` and `CREATE TABLE`
statements execute with no transaction open and are autocommitted at once.
So by the time `to_sql` starts inserting, the prior table is already gone
and a fresh empty `session_logs` table is durably in place; the inserts run
in one implicit transaction that `commit` publishes and the `except`
branch's `rollback` undoes.  An insertion failure is modelled by the index
`failAt` of the row whose insert raises. -/

/-- A stored row: the auto-increment `session_id` primary key plus payload. -/
structure DbRow where
  session_id : ℕ
  user_id : String
  game_id : String
  session_start : ℤ
  session_end : ℤ
  duration : ℤ
deriving DecidableEq

/-- A session row as handed to the sink (no id yet). -/
structure SinkRow where
  user_id : String
  game_id : String
  session_start : ℤ
  session_end : ℤ
  duration : ℤ
deriving DecidableEq

/-- `session_id` assignment: insert rows in order, auto-incrementing the
primary key from `nextId`; the insert of row index `i = failAt` raises. -/
def insertFrom (nextId i : ℕ) (failAt : Option ℕ) :
    List SinkRow → Except Unit (List DbRow)
  | [] => .ok []
  | r :: rs =>
    if failAt = some i then .error ()
    else
      match insertFrom (nextId + 1) (i + 1) failAt rs with
      | .ok tbl => .ok (⟨nextId, r.user_id, r.game_id, r.session_start,
                        r.session_end, r.duration⟩ :: tbl)
      | .error e => .error e

/-- The rows `setup_database` stores on success: ids 1, 2, 3, …. -/
def numberedRows (rows : List SinkRow) : List DbRow :=
  match insertFrom 1 0 none rows with
  | .ok tbl => tbl
  | .error _ => []

/-- `setup_database` (`src/etl/pipeline.py`): drop any existing
`session_logs` table, create a fresh one — both DDL statements autocommit
immediately, destroying the prior contents `_init` — then bulk-insert and
commit; on an insertion failure the `rollback` undoes only the inserts and
re-raises, leaving the fresh empty table in the store.  Returns the success
flag and the committed store contents after the connection closes. -/
def setup_database (_init : Option (List DbRow)) (rows : List SinkRow)
    (failAt : Option ℕ) : Bool × Option (List DbRow) :=
  -- DROP TABLE IF EXISTS; CREATE TABLE: autocommitted, store now `some []`
  match insertFrom 1 0 failAt rows with
  | .ok tbl => (true, some tbl)     -- commit publishes the inserted rows
  | .error _ => (false, some [])    -- rollback undoes the inserts only

/-! ## A concrete lawful random stream

`cxRng` instantiates the abstract stream model with explicit deterministic
draws (always the least admissible value); it serves to evaluate the
simulators on concrete inputs. -/

def cxRng : Rng ℕ where
  seed := fun n => n
  choiceIdx := fun g _ => (0, g + 1)
  choiceP := fun g _ => (0, g + 1)
  npRandint := fun g _ => (0, g + 1)
  triangular := fun g lo _ _ => (lo, g + 1)
  normal := fun g mu _ => (mu, g + 1)
  lognormal := fun g _ _ => (1, g + 1)
  uniform := fun g a _ => (a, g + 1)
  gauss := fun g mu _ => (mu, g + 1)
  randintI := fun g a _ => (a, g + 1)
  choiceIdx_lt := fun _ _ h => h
  choiceP_lt := fun _ _ h => List.length_pos.mpr h
  npRandint_lt := fun _ _ h => h
  uniform_mem := fun _ a _ h => ⟨le_refl a, h⟩
  randintI_mem := fun _ a _ h => ⟨Nat.le_refl a, h⟩

/-- The user-id column of a concrete Mode B run: one game of weight 1, a user
population of size 1, a 7-day window, 10 target sessions. -/
def cxRunUsers : List String :=
  match simulate_user_sessions cxRng 0 [("GameA", 1)] 1 7 ⟨0, 0⟩ 10 with
  | .ok l => l.map SessionRecB.user_id
  | .error _ => []

/-! ## Character-level lemmas for the column normalizer -/

theorem toNat_charOfNat (n : ℕ) (h : n.isValidChar) : (Char.ofNat n).toNat = n := by
  simp [Char.ofNat, Char.ofNatAux, Char.toNat, dif_pos h, UInt32.toNat, BitVec.toNat_ofNatLt]

theorem char_eq_iff_toNat (c d : Char) : c = d ↔ c.toNat = d.toNat := by
  constructor
  · intro h
    rw [h]
  · intro h
    exact Char.eq_of_val_eq (UInt32.ext h)

theorem pyLowerChar_toNat_of_upper (c : Char) (h1 : 'A' ≤ c) (h2 : c ≤ 'Z') :
    (pyLowerChar c).toNat = c.toNat + 32 := by
  have hA : 65 ≤ c.toNat := by simpa [Char.le_def] using h1
  have hZ : c.toNat ≤ 90 := by simpa [Char.le_def] using h2
  have hv : (c.toNat + 32).isValidChar := by
    constructor
    omega
  rw [pyLowerChar, if_pos ⟨h1, h2⟩, toNat_charOfNat _ hv]

theorem pyLowerChar_idem (c : Char) : pyLowerChar (pyLowerChar c) = pyLowerChar c := by
  by_cases h : 'A' ≤ c ∧ c ≤ 'Z'
  · have ht := pyLowerChar_toNat_of_upper c h.1 h.2
    have hA : 65 ≤ c.toNat := by simpa [Char.le_def] using h.1
    have hub : ¬ ('A' ≤ pyLowerChar c ∧ pyLowerChar c ≤ 'Z') := by
      rintro ⟨_, hz⟩
      have : (pyLowerChar c).toNat ≤ 90 := by simpa [Char.le_def] using hz
      omega
    rw [pyLowerChar, if_neg hub]
  · have hc : pyLowerChar c = c := by rw [pyLowerChar, if_neg h]
    rw [hc]
    exact hc

theorem pyIsSpace_toNat_le (c : Char) (h : pyIsSpace c = true) : c.toNat ≤ 32 := by
  simp only [pyIsSpace, Bool.or_eq_true, decide_eq_true_eq] at h
  rcases h with (((((h | h) | h) | h) | h) | h) <;> subst h <;> decide

theorem pyIsSpace_pyLowerChar (c : Char) : pyIsSpace (pyLowerChar c) = pyIsSpace c := by
  by_cases h : 'A' ≤ c ∧ c ≤ 'Z'
  · have ht := pyLowerChar_toNat_of_upper c h.1 h.2
    have hA : 65 ≤ c.toNat := by simpa [Char.le_def] using h.1
    have l1 : pyIsSpace (pyLowerChar c) = false := by
      by_contra hx
      have := pyIsSpace_toNat_le (pyLowerChar c) (by simpa using hx)
      omega
    have l2 : pyIsSpace c = false := by
      by_contra hx
      have := pyIsSpace_toNat_le c (by simpa using hx)
      omega
    rw [l1, l2]
  · rw [pyLowerChar, if_neg h]

theorem pyLowerChar_ne_quote (c : Char) (h : c ≠ '\x22') : pyLowerChar c ≠ '\x22' := by
  by_cases hu : 'A' ≤ c ∧ c ≤ 'Z'
  · have ht := pyLowerChar_toNat_of_upper c hu.1 hu.2
    have hA : 65 ≤ c.toNat := by simpa [Char.le_def] using hu.1
    intro hx
    rw [char_eq_iff_toNat, ht] at hx
    have h34 : Char.toNat '\x22' = 34 := by decide
    omega
  · rw [pyLowerChar, if_neg hu]
    exact h

/-! ## List-level lemmas for the column normalizer -/

theorem mem_collapseRuns (p : Char → Bool) (b : Bool) (l : List Char) (c : Char)
    (h : c ∈ collapseRuns p b l) : c = '_' ∨ (p c = false ∧ c ∈ l) := by
  induction l generalizing b with
  | nil => simp [collapseRuns] at h
  | cons d ds ih =>
    by_cases hd : p d
    · cases b with
      | true =>
        simp only [collapseRuns, hd, if_pos, if_true] at h
        rcases ih true h with h1 | h1
        · exact Or.inl h1
        · exact Or.inr ⟨h1.1, List.mem_cons_of_mem d h1.2⟩
      | false =>
        simp only [collapseRuns, hd, if_pos, if_false] at h
        rcases List.mem_cons.mp h with h1 | h1
        · exact Or.inl h1
        · rcases ih true h1 with h2 | h2
          · exact Or.inl h2
          · exact Or.inr ⟨h2.1, List.mem_cons_of_mem d h2.2⟩
    · simp only [collapseRuns, hd, if_neg, Bool.false_eq_true, if_false] at h
      rcases List.mem_cons.mp h with h1 | h1
      · rw [h1]
        exact Or.inr ⟨Bool.eq_false_iff.mpr hd, List.mem_cons_self d ds⟩
      · rcases ih false h1 with h2 | h2
        · exact Or.inl h2
        · exact Or.inr ⟨h2.1, List.mem_cons_of_mem d h2.2⟩

theorem collapseRuns_eq_self (p : Char → Bool) (b : Bool) (l : List Char)
    (h : ∀ c ∈ l, p c = false) : collapseRuns p b l = l := by
  induction l generalizing b with
  | nil => rfl
  | cons d ds ih =>
    have hd : p d = false := h d (List.mem_cons_self d ds)
    simp only [collapseRuns, hd, Bool.false_eq_true, if_false]
    rw [ih false (fun c hc => h c (List.mem_cons_of_mem d hc))]

theorem dropWhile_eq_self_of_forall (p : Char → Bool) (l : List Char)
    (h : ∀ c ∈ l, p c = false) : l.dropWhile p = l := by
  cases l with
  | nil => rfl
  | cons d ds =>
    have hd : p d = false := h d (List.mem_cons_self d ds)
    simp [List.dropWhile, hd]

theorem pyStripL_eq_self (l : List Char) (h : ∀ c ∈ l, pyIsSpace c = false) :
    pyStripL l = l := by
  unfold pyStripL
  rw [dropWhile_eq_self_of_forall pyIsSpace l h]
  rw [dropWhile_eq_self_of_forall pyIsSpace l.reverse
    (fun c hc => h c (List.mem_reverse.mp hc))]
  exact List.reverse_reverse l

theorem dequoteL_eq_self (l : List Char) (h : ∀ c ∈ l, c ≠ '\x22') :
    dequoteL l = l := by
  unfold dequoteL
  rw [List.filter_eq_self]
  intro c hc
  simpa using h c hc

theorem mem_pyStripL (l : List Char) (c : Char) (h : c ∈ pyStripL l) : c ∈ l := by
  unfold pyStripL at h
  rw [List.mem_reverse] at h
  have h2 := (List.dropWhile_sublist pyIsSpace).subset h
  rw [List.mem_reverse] at h2
  exact (List.dropWhile_sublist pyIsSpace).subset h2

theorem clean_column_name_no_space (s : String) (c : Char)
    (h : c ∈ (clean_column_name s).data) : pyIsSpace c = false := by
  obtain ⟨c0, hc0, rfl⟩ := List.mem_map.mp h
  rw [pyIsSpace_pyLowerChar]
  rcases mem_collapseRuns _ _ _ _ hc0 with h1 | h1
  · rw [h1]
    decide
  · exact h1.1

theorem clean_column_name_no_quote (s : String) (c : Char)
    (h : c ∈ (clean_column_name s).data) : c ≠ '\x22' := by
  obtain ⟨c0, hc0, rfl⟩ := List.mem_map.mp h
  apply pyLowerChar_ne_quote
  rcases mem_collapseRuns _ _ _ _ hc0 with h1 | h1
  · rw [h1]
    decide
  · have h2 := mem_pyStripL _ _ h1.2
    have h3 := List.mem_filter.mp h2
    simpa using h3.2

theorem clean_column_name_lower_fixed (s : String) :
    pyLowerL (clean_column_name s).data = (clean_column_name s).data := by
  show pyLowerL (pyLowerL _) = pyLowerL _
  unfold pyLowerL
  rw [List.map_map]
  simp [Function.comp, pyLowerChar_idem]

/-- **C9**: the column normalizer `clean_column_name` (`src/utils.py`,
identically `clean_column` in `src/simple_etl.py`) is idempotent: for every
string `s`, normalizing the result of normalization returns it unchanged. -/
theorem clean_column_name_idempotent (s : String) :
    clean_column_name (clean_column_name s) = clean_column_name s := by
  have hns := clean_column_name_no_space s
  have hnq := clean_column_name_no_quote s
  conv_lhs => rw [clean_column_name]
  rw [dequoteL_eq_self _ hnq, pyStripL_eq_self _ hns, collapseRuns_eq_self _ _ _ hns,
    clean_column_name_lower_fixed s]

/-- **C6 counterexample**: the claim says every raw header has its
whitespace and hyphen runs collapsed to `_`, and in particular that
`" Peak-No. Of Players "` normalizes to `"peak_no._of_players"`; the cited
`clean_column_name` (`src/utils.py`) collapses only whitespace runs, so on
that very input it keeps the hyphen and produces a different string. -/
theorem column_normalizer_counterexample :
    clean_column_name " Peak-No. Of Players " ≠ "peak_no._of_players" := by decide

/-- **C6 amended**: `clean_column_name` strips quotes, trims, collapses
whitespace (not hyphen) runs to one `_` and lowercases, sending
`" Peak-No. Of Players "` to `"peak-no._of_players"`; the pandas
normalization of `src/etl/generate_sessions.py` line 89 trims, lowercases
and collapses whitespace-and-hyphen runs (removing no quotes), and it is the
one sending `" Peak-No. Of Players "` to `"peak_no._of_players"`. -/
theorem column_normalizer_behavior :
    clean_column_name " Peak-No. Of Players " = "peak-no._of_players" ∧
    pandasCleanColumn " Peak-No. Of Players " = "peak_no._of_players" ∧
    clean_column_name "\x22Name  Two\x22" = "name_two" ∧
    pandasCleanColumn "\x22Name  Two\x22" = "\x22name_two\x22" :=
  ⟨by decide, by decide, by decide, by decide⟩

/-- **C5 counterexample**: the claim says the numeric cleaner returns the
missing sentinel — never zero — on every unparsable string, and cites
`_clean_numeric_column` (`src/etl/generate_sessions.py`, lines 38–53) among
its implementations; that cleaner deletes every non-digit character and then
coerces the emptied cell `"abc"` to `0`. -/
theorem numeric_cleaner_zero_counterexample : cleanNumericCell "abc" = 0 := by decide

/-- **C5 amended**: `clean_numeric_string` (`src/utils.py`) does satisfy the
contract — numeric input is returned unchanged, strings are stripped of
quotes and commas and parsed as `int` without a decimal point and as `float`
with one, and every parse failure yields the `pd.NA` sentinel (which differs
from zero) rather than an exception; the sibling cleaner
`_clean_numeric_column` of `src/etl/generate_sessions.py` instead coerces
unparsable strings to `0`. -/
theorem numeric_cleaner_contract :
    (∀ n : ℤ, clean_numeric_string (.int n) = .int n) ∧
    (∀ q : ℚ, clean_numeric_string (.float q) = .float q) ∧
    clean_numeric_string (.str "1,234") = .int 1234 ∧
    clean_numeric_string (.str "\x2212.50\x22") = .float (25/2) ∧
    clean_numeric_string (.str "abc") = .na ∧
    (∀ s : String, '.' ∉ (stripQuotesCommas s).data →
      pyParseInt (stripQuotesCommas s) = none →
      clean_numeric_string (.str s) = .na) ∧
    (∀ s : String, '.' ∈ (stripQuotesCommas s).data →
      pyParseFloat (stripQuotesCommas s) = none →
      clean_numeric_string (.str s) = .na) ∧
    PyVal.na ≠ PyVal.int 0 := by
  refine ⟨fun n => rfl, fun q => rfl, by decide, ?_, by decide, ?_, ?_, by decide⟩
  · simp [clean_numeric_string, stripQuotesCommas, pyParseFloat, splitAtDot, pyStripL,
      decodeDigits, digitVal, pyIsSpace, isDigitCh]
    norm_num
  · intro s h1 h2
    simp [clean_numeric_string, h1, h2]
  · intro s h1 h2
    simp [clean_numeric_string, h1, h2]

/-- Witness for the amended numeric-cleaner contract: the parse-failure
clause applied at the concrete unparsable string `"xyz"`. -/
theorem numeric_cleaner_contract_witness : clean_numeric_string (.str "xyz") = .na :=
  numeric_cleaner_contract.2.2.2.2.2.1 "xyz" (by decide) (by decide)

/-! ## Game Weight Estimator lemmas -/

theorem countP_lt_countP {α : Type} (l : List α) (p q : α → Bool)
    (himp : ∀ v ∈ l, q v = true → p v = true) (x : α) (hx : x ∈ l)
    (hpx : p x = true) (hqx : q x = false) : l.countP q < l.countP p := by
  induction l with
  | nil => simp at hx
  | cons a as ih =>
    rw [List.countP_cons, List.countP_cons]
    rcases List.mem_cons.mp hx with h1 | h1
    · rw [h1] at hpx hqx
      rw [hpx, hqx]
      have hle : as.countP q ≤ as.countP p :=
        List.countP_mono_left (fun v hv => himp v (List.mem_cons_of_mem a hv))
      simp
      omega
    · have hlt := ih (fun v hv => himp v (List.mem_cons_of_mem a hv)) h1
      have hterm : (if q a = true then 1 else 0) ≤ (if p a = true then 1 else 0) := by
        by_cases hqa : q a = true
        · rw [if_pos hqa, if_pos (himp a (List.mem_cons_self a as) hqa)]
        · rw [if_neg hqa]
          omega
      omega

/-- **C7**: the Game Weight Estimator groups rows by game name, takes the
mean `peak_players` per game and assigns each game the dense rank of its
mean, ascending: the mapping covers exactly the distinct game names, equal
means share a rank, a strictly maximal mean gets the maximal rank (strictly
above every other game), and empty input yields the empty mapping. -/
theorem game_weights_dense_rank (rows : List (String × ℤ)) :
    calculate_game_weights [] = [] ∧
    (calculate_game_weights rows).map Prod.fst = gameNames rows ∧
    (∀ g ∈ gameNames rows, (g, (denseRank rows g : ℚ)) ∈ calculate_game_weights rows) ∧
    (∀ g1 g2 : String, meanPeak rows g1 = meanPeak rows g2 →
      denseRank rows g1 = denseRank rows g2) ∧
    (∀ g ∈ gameNames rows,
      (∀ g2 ∈ gameNames rows, g2 ≠ g → meanPeak rows g2 < meanPeak rows g) →
      denseRank rows g = (distinctMeans rows).length ∧
      ∀ g2 ∈ gameNames rows, g2 ≠ g → denseRank rows g2 < denseRank rows g) := by
  refine ⟨rfl, ?_, ?_, ?_, ?_⟩
  · rw [calculate_game_weights, List.map_map]
    exact List.map_id _
  · intro g hg
    exact List.mem_map.mpr ⟨g, hg, rfl⟩
  · intro g1 g2 h
    rw [denseRank, denseRank, h]
  · intro g hg hmax
    constructor
    · rw [denseRank]
      rw [List.filter_eq_self.mpr]
      intro v hv
      rcases List.mem_map.mp (List.mem_dedup.mp hv) with ⟨g2, hg2, rfl⟩
      by_cases he : g2 = g
      · rw [he]
        exact decide_eq_true (le_refl _)
      · exact decide_eq_true (le_of_lt (hmax g2 hg2 he))
    · intro g2 hg2 hne
      rw [denseRank, denseRank, ← List.countP_eq_length_filter, ← List.countP_eq_length_filter]
      refine countP_lt_countP (distinctMeans rows) _ _ ?_ (meanPeak rows g) ?_ ?_ ?_
      · intro v _ hv
        have h1 : v ≤ meanPeak rows g2 := of_decide_eq_true hv
        exact decide_eq_true (le_trans h1 (le_of_lt (hmax g2 hg2 hne)))
      · exact List.mem_dedup.mpr (List.mem_map.mpr ⟨g, hg, rfl⟩)
      · exact decide_eq_true (le_refl (meanPeak rows g))
      · exact decide_eq_false (not_le.mpr (hmax g2 hg2 hne))

/-- Witness for the dense-rank theorem at a concrete row set: game B's mean
peak (3) strictly exceeds game A's (2), so B gets the top rank. -/
theorem game_weights_dense_rank_witness :
    denseRank [("A", 1), ("B", 3), ("A", 3)] "B" =
      (distinctMeans [("A", 1), ("B", 3), ("A", 3)]).length ∧
    denseRank [("A", 1), ("B", 3), ("A", 3)] "A" <
      denseRank [("A", 1), ("B", 3), ("A", 3)] "B" := by
  have hmA : meanPeak [("A", (1:ℤ)), ("B", 3), ("A", 3)] "A" = 2 := by
    have h1 : peaksOf [("A", (1:ℤ)), ("B", 3), ("A", 3)] "A" = [1, 3] := by decide
    rw [meanPeak, h1]
    norm_num [List.sum_cons, List.sum_nil]
  have hmB : meanPeak [("A", (1:ℤ)), ("B", 3), ("A", 3)] "B" = 3 := by
    have h1 : peaksOf [("A", (1:ℤ)), ("B", 3), ("A", 3)] "B" = [3] := by decide
    rw [meanPeak, h1]
    norm_num [List.sum_cons, List.sum_nil]
  have hgn : gameNames [("A", (1:ℤ)), ("B", 3), ("A", 3)] = ["B", "A"] := by decide
  have hmax : ∀ g2 ∈ gameNames [("A", (1:ℤ)), ("B", 3), ("A", 3)], g2 ≠ "B" →
      meanPeak [("A", (1:ℤ)), ("B", 3), ("A", 3)] g2 <
      meanPeak [("A", (1:ℤ)), ("B", 3), ("A", 3)] "B" := by
    intro g2 hg2 hne
    rw [hgn] at hg2
    rcases List.mem_cons.mp hg2 with h | h
    · exact absurd h hne
    · have h2 : g2 = "A" := by simpa using h
      rw [h2, hmA, hmB]
      norm_num
  have hB : "B" ∈ gameNames [("A", (1:ℤ)), ("B", 3), ("A", 3)] := by
    rw [hgn]
    exact List.mem_cons_self _ _
  obtain ⟨h1, h2⟩ :=
    (game_weights_dense_rank [("A", 1), ("B", 3), ("A", 3)]).2.2.2.2 "B" hB hmax
  refine ⟨h1, h2 "A" ?_ ?_⟩
  · rw [hgn]
    exact List.mem_cons_of_mem _ (List.mem_cons_self _ _)
  · decide

/-- **C3**: every row surviving `clean_sessions`
(`src/etl/generate_sessions.py`, lines 293–327) stores exactly the
recomputed duration — `(session_end − session_start)` in minutes rounded to
the nearest whole minute — and that duration is strictly positive; rows
whose recomputed duration is ≤ 0 and rows with a missing field never reach
the output (the output passes both the positivity filter and `dropna`). -/
theorem clean_sessions_postcondition (rows : List CRow) (r : CRow)
    (h : r ∈ clean_sessions rows) :
    r.session_duration = roundHalfEven (((r.session_end - r.session_start : ℤ) : ℚ) / 60) ∧
    0 < r.session_duration ∧
    r.user_id.isSome = true ∧ r.game_id.isSome = true ∧
    r.day_of_week.isSome = true ∧ r.hour_of_day.isSome = true := by
  unfold clean_sessions at h
  have h1 := List.mem_filter.mp h
  have h2 := List.mem_filter.mp h1.1
  obtain ⟨r0, hr0, hre⟩ := List.mem_map.mp h2.1
  refine ⟨?_, ?_, ?_⟩
  · rw [← hre]
    rfl
  · simpa using h2.2
  · have h3 := h1.2
    simp [noMissing] at h3
    exact ⟨h3.1.1.1, h3.1.1.2, h3.1.2, h3.2⟩

/-- Witness for the cleaning-pass postcondition at a concrete row: a session
of 1800 seconds has its duration recomputed to 30 minutes, survives the pass,
and satisfies the postcondition. -/
theorem clean_sessions_postcondition_witness :
    (⟨some "u", some "g", 0, 1800, 30, some "Monday", some 0⟩ : CRow) ∈
      clean_sessions [⟨some "u", some "g", 0, 1800, 99, some "Monday", some 0⟩] ∧
    (0 : ℤ) < (⟨some "u", some "g", 0, 1800, 30, some "Monday", some 0⟩ : CRow).session_duration := by
  have hx : roundHalfEven ((((30:ℤ)) : ℚ)) = 30 := by
    rw [roundHalfEven]
    norm_num [Int.floor_intCast]
  have e : (((1800:ℤ) - 0 : ℤ) : ℚ) / 60 = ((30:ℤ) : ℚ) := by norm_num
  have hrd : recomputedDuration ⟨some "u", some "g", 0, 1800, 99, some "Monday", some (0:ℤ)⟩ = 30 := by
    show roundHalfEven ((((1800:ℤ) - 0 : ℤ) : ℚ) / 60) = 30
    rw [e]
    exact hx
  have hcs : clean_sessions [⟨some "u", some "g", 0, 1800, 99, some "Monday", some 0⟩] =
      [⟨some "u", some "g", 0, 1800, 30, some "Monday", some 0⟩] := by
    simp [clean_sessions, hrd, noMissing]
  have hmem : (⟨some "u", some "g", 0, 1800, 30, some "Monday", some 0⟩ : CRow) ∈
      clean_sessions [⟨some "u", some "g", 0, 1800, 99, some "Monday", some 0⟩] := by
    rw [hcs]
    exact List.mem_cons_self _ _
  exact ⟨hmem, (clean_sessions_postcondition _ _ hmem).2.1⟩

/-! ## Persistence sink lemmas -/

theorem insertFrom_none_ok (rows : List SinkRow) :
    ∀ nextId i, ∃ tbl, insertFrom nextId i none rows = .ok tbl ∧
      tbl.map DbRow.session_id = List.range' nextId rows.length := by
  induction rows with
  | nil =>
    intro nextId i
    exact ⟨[], rfl, rfl⟩
  | cons r rs ih =>
    intro nextId i
    obtain ⟨tbl, h1, h2⟩ := ih (nextId + 1) (i + 1)
    refine ⟨⟨nextId, r.user_id, r.game_id, r.session_start, r.session_end, r.duration⟩ :: tbl, ?_, ?_⟩
    · rw [insertFrom, if_neg (by simp), h1]
    · simp [h2, List.range']

theorem insertFrom_fail (rows : List SinkRow) :
    ∀ nextId i k, i ≤ k → k < i + rows.length →
      insertFrom nextId i (some k) rows = .error () := by
  induction rows with
  | nil =>
    intro nextId i k h1 h2
    simp at h2
    omega
  | cons r rs ih =>
    intro nextId i k h1 h2
    by_cases he : k = i
    · rw [insertFrom, if_pos (by rw [he])]
    · rw [insertFrom, if_neg (by simp; omega)]
      rw [ih (nextId + 1) (i + 1) k (by omega) (by simp at h2; omega)]

theorem insertFrom_ok_none (rows : List SinkRow) :
    ∀ nextId i failAt tbl, insertFrom nextId i failAt rows = .ok tbl →
      insertFrom nextId i none rows = .ok tbl := by
  induction rows with
  | nil =>
    intro nextId i failAt tbl h
    exact h
  | cons r rs ih =>
    intro nextId i failAt tbl h
    rw [insertFrom] at h
    by_cases hf : failAt = some i
    · rw [if_pos hf] at h
      exact absurd h (by simp)
    · rw [if_neg hf] at h
      rw [insertFrom, if_neg (by simp)]
      cases hrec : insertFrom (nextId + 1) (i + 1) failAt rs with
      | ok tbl2 =>
        rw [hrec] at h
        rw [ih (nextId + 1) (i + 1) failAt tbl2 hrec]
        exact h
      | error e =>
        rw [hrec] at h
        exact absurd h (by simp)

/-- **C8 counterexample**: the claim says an insertion failure rolls the
entire batch back so the store keeps a consistent session table; but the
`DROP`/`CREATE` DDL autocommits before the inserts begin, so a failed insert
leaves a fresh *empty* `session_logs` table — the prior contents are
destroyed, not restored. -/
theorem persistence_sink_counterexample :
    setup_database (some [⟨7, "old", "og", 0, 0, 1⟩]) [⟨"u1", "g1", 0, 60, 1⟩] (some 0) =
      (false, some []) ∧
    (some [] : Option (List DbRow)) ≠ some [⟨7, "old", "og", 0, 0, 1⟩] := by
  constructor
  · rw [setup_database]
    rfl
  · simp

/-- **C8 amended**: `setup_database` (`src/etl/pipeline.py`, lines 123–146)
drops any pre-existing `session_logs` table and creates a fresh one — both
autocommitted at once, independent of the prior store contents — then
bulk-inserts every row with auto-increment ids 1, 2, 3, … and commits the
inserts as one unit; when any insert fails, the rollback undoes the insert
batch only, so the committed store is either the fresh *empty* table (prior
contents destroyed, not restored) or the complete new table — never a
partially-written one. -/
theorem persistence_sink_atomicity (init : Option (List DbRow)) (rows : List SinkRow)
    (failAt : Option ℕ) :
    ((setup_database init rows failAt).2 = some [] ∨
     (setup_database init rows failAt).2 = some (numberedRows rows)) ∧
    (∀ k, failAt = some k → k < rows.length →
      setup_database init rows failAt = (false, some [])) ∧
    (failAt = none → setup_database init rows failAt = (true, some (numberedRows rows))) ∧
    setup_database init rows failAt = setup_database none rows failAt ∧
    (numberedRows rows).map DbRow.session_id = List.range' 1 rows.length := by
  obtain ⟨tbl0, ht0, hid0⟩ := insertFrom_none_ok rows 1 0
  have hnr : numberedRows rows = tbl0 := by
    rw [numberedRows, ht0]
  refine ⟨?_, ?_, ?_, rfl, ?_⟩
  · cases hi : insertFrom 1 0 failAt rows with
    | ok tbl =>
      right
      have := insertFrom_ok_none rows 1 0 failAt tbl hi
      rw [setup_database, hi]
      rw [hnr]
      rw [this] at ht0
      simp at ht0
      rw [ht0]
    | error e =>
      left
      rw [setup_database, hi]
  · intro k hk hlen
    rw [setup_database, hk, insertFrom_fail rows 1 0 k (by omega) (by omega)]
  · intro hf
    rw [setup_database, hf, ht0, hnr]
  · rw [hnr]
    exact hid0

/-- Witness for the amended sink theorem: a two-row batch against a store
holding one old row, once with the second insert failing (the store is left
with the fresh empty table) and once without failure (the fresh table is
committed with ids 1, 2). -/
theorem persistence_sink_atomicity_witness :
    setup_database (some [⟨7, "old", "og", 0, 0, 1⟩])
      [⟨"u1", "g1", 0, 60, 1⟩, ⟨"u2", "g2", 0, 120, 2⟩] (some 1) =
      (false, some []) ∧
    setup_database (some [⟨7, "old", "og", 0, 0, 1⟩])
      [⟨"u1", "g1", 0, 60, 1⟩, ⟨"u2", "g2", 0, 120, 2⟩] none =
      (true, some (numberedRows [⟨"u1", "g1", 0, 60, 1⟩, ⟨"u2", "g2", 0, 120, 2⟩])) := by
  refine ⟨?_, ?_⟩
  · exact (persistence_sink_atomicity _ _ _).2.1 1 rfl (by decide)
  · exact (persistence_sink_atomicity _ _ _).2.2.1 rfl

/-! ## Mode A session-count lemmas -/

theorem genSessionsA_length (σ : Type) (R : Rng σ) (cfg : ConfigA) (gname : String) (date : ℤ) :
    ∀ n c g, ((genSessionsA R cfg gname date n c g).1).length = n := by
  intro n
  induction n with
  | zero => intro c g; rfl
  | succ k ih =>
    intro c g
    simp only [genSessionsA, List.length_cons]
    rw [ih]

theorem genSessionsP_length (σ : Type) (R : Rng σ) (avgDur : ℤ) (gname : String) (date : ℤ) :
    ∀ n c g, ((genSessionsP R avgDur gname date n c g).1).length = n := by
  intro n
  induction n with
  | zero => intro c g; rfl
  | succ k ih =>
    intro c g
    simp only [genSessionsP, List.length_cons]
    rw [ih]

/-- **C1 counterexample**: the claim also covers the cited pipeline variant
`simulate_sessions` (`src/etl/pipeline.py`, lines 84–96), which applies no
noise and no `[1, max_sessions_per_day]` clamp: the daily record with
`hours_played = 1/10 > 0` gets the unclamped target count
`int(6/30) = 0` — outside `[1, max]` — and the record is skipped, so no
session at all is generated for it. -/
theorem mode_a_session_count_counterexample :
    (0 : ℚ) < 1/10 ∧
    numSessionsP 30 (1/10) = 0 ∧
    (pipeline_simulate_row cxRng 30 ⟨"G", 0, 1/10⟩ 0 0).1 = [] := by
  have h0 : numSessionsP 30 (1/10) = 0 := by
    rw [numSessionsP, pyTrunc, if_pos (by norm_num)]
    have e : (1/10 : ℚ) * 60 / ((30 : ℤ) : ℚ) = 1/5 := by norm_num
    rw [e, Int.floor_eq_zero_iff]
    constructor <;> norm_num
  refine ⟨by norm_num, h0, ?_⟩
  rw [pipeline_simulate_row, if_neg (by norm_num), if_pos (le_of_eq h0)]

/-- **C1 amended**: in `src/simulate_sessions.py` (lines 30–41) the target
session count is `int(hours·60/avg)` perturbed by the noise draw and clamped
into `[1, MAX_SESSIONS_PER_DAY]`: for any noise draw the count stays in that
interval; with zero noise it is exactly the clamped `⌊hours·60/avg⌋`; and for
`hours_played = 10`, `avg = 30`, noise 0 and a non-binding max clamp, exactly
20 sessions are generated for the record.  The cited pipeline variant
(`src/etl/pipeline.py`, lines 84–96) instead applies no noise and no clamp:
a record whose raw count `int(hours·60/avg)` is `≤ 0` is skipped (yields no
sessions, not one), and otherwise exactly that raw count of sessions is
generated, unbounded above. -/
theorem mode_a_session_count (σ : Type) (R : Rng σ) (g : σ) (cfg : ConfigA)
    (hours eps : ℚ) (gname : String) (date : ℤ) (c : ℕ) (avgI : ℤ)
    (hmax : 1 ≤ cfg.maxSessionsPerDay) (h0 : 0 ≤ hours) (hd : 0 < cfg.avgSessionDuration) :
    1 ≤ numSessionsA cfg hours eps ∧
    numSessionsA cfg hours eps ≤ cfg.maxSessionsPerDay ∧
    numSessionsA cfg hours 0 =
      min (max 1 ⌊hours * 60 / cfg.avgSessionDuration⌋) cfg.maxSessionsPerDay ∧
    (cfg.avgSessionDuration = 30 → 20 ≤ cfg.maxSessionsPerDay → numSessionsA cfg 10 0 = 20) ∧
    (cfg.sessionCountNoise = 0 → cfg.avgSessionDuration = 30 → 20 ≤ cfg.maxSessionsPerDay →
      (modeARow R cfg ⟨gname, date, 10⟩ c g).1.length = 20) ∧
    (∀ h2 : ℚ, numSessionsP avgI h2 ≤ 0 →
      (pipeline_simulate_row R avgI ⟨gname, date, h2⟩ c g).1 = []) ∧
    (∀ h2 : ℚ, 0 < h2 → 0 < numSessionsP avgI h2 →
      (pipeline_simulate_row R avgI ⟨gname, date, h2⟩ c g).1.length =
        (numSessionsP avgI h2).toNat) := by
  have h20 : cfg.avgSessionDuration = 30 → 20 ≤ cfg.maxSessionsPerDay →
      numSessionsA cfg 10 0 = 20 := by
    intro havg hm
    rw [numSessionsA, havg]
    have e1 : (10 : ℚ) * 60 / 30 = 20 := by norm_num
    rw [e1]
    have e2 : (20 : ℚ) + 0 * 20 = 20 := by norm_num
    rw [e2]
    have e3 : pyTrunc 20 = 20 := by
      rw [pyTrunc, if_pos (by norm_num)]
      norm_num [Int.floor_intCast]
    rw [e3]
    omega
  refine ⟨?_, ?_, ?_, h20, ?_, ?_, ?_⟩
  · rw [numSessionsA]
    exact le_min (le_max_left 1 _) hmax
  · exact min_le_right _ _
  · rw [numSessionsA]
    have e2 : hours * 60 / cfg.avgSessionDuration + 0 * (hours * 60 / cfg.avgSessionDuration) =
        hours * 60 / cfg.avgSessionDuration := by ring
    rw [e2, pyTrunc, if_pos]
    exact div_nonneg (by positivity) (le_of_lt hd)
  · intro hnoise havg hm
    rw [modeARow, if_neg (by norm_num)]
    simp only [hnoise]
    have hmem := R.uniform_mem g (-0 : ℚ) 0 (by norm_num)
    have hz : (R.uniform g (-0 : ℚ) 0).1 = 0 :=
      le_antisymm hmem.2 (by simpa using hmem.1)
    rw [hz, genSessionsA_length]
    rw [h20 havg hm]
    rfl
  · intro h2 hle
    rw [pipeline_simulate_row]
    by_cases hh : h2 ≤ 0
    · rw [if_pos hh]
    · rw [if_neg hh, if_pos hle]
  · intro h2 hpos hcount
    rw [pipeline_simulate_row, if_neg (not_le.mpr hpos), if_neg (not_le.mpr hcount)]
    exact genSessionsP_length σ R avgI gname date _ c g

/-- Witness for the Mode A session-count theorem at the concrete
configuration avg = 30, max = 100, noise = 0 and a record with
`hours_played = 10`: both cited implementations produce 20 sessions for the
record (the pipeline variant because its raw count is exactly 20). -/
theorem mode_a_session_count_witness :
    numSessionsA ⟨30, 100, 15, 120, 0, 19, 3⟩ 10 0 = 20 ∧
    (modeARow cxRng ⟨30, 100, 15, 120, 0, 19, 3⟩ ⟨"G", 0, 10⟩ 0 0).1.length = 20 ∧
    (pipeline_simulate_row cxRng 30 ⟨"G", 0, 10⟩ 0 0).1.length = 20 := by
  have h := mode_a_session_count ℕ cxRng 0 ⟨30, 100, 15, 120, 0, 19, 3⟩ 10 0 "G" 0 0 30
    (by decide) (by decide) (by decide)
  have hp20 : numSessionsP 30 10 = 20 := by
    rw [numSessionsP, pyTrunc, if_pos (by norm_num)]
    have e : (10 : ℚ) * 60 / ((30 : ℤ) : ℚ) = ((20 : ℤ) : ℚ) := by norm_num
    rw [e, Int.floor_intCast]
  refine ⟨h.2.2.2.1 rfl (by decide), h.2.2.2.2.1 rfl rfl (by decide), ?_⟩
  rw [h.2.2.2.2.2.2 10 (by norm_num) (by rw [hp20]; norm_num), hp20]
  rfl

/-- **C2**: Mode B is reproducible: `_simulate_user_sessions` reseeds the
one global numpy stream with the fixed seed 42 before any draw, so two
invocations with identical inputs — whatever the ambient stream states `g1`
and `g2` were — produce identical session sequences. -/
theorem mode_b_reproducible (σ : Type) (R : Rng σ) (g1 g2 : σ)
    (w : List (String × ℚ)) (numUsers simDays : ℕ) (sd : StartDate) (target : ℕ) :
    simulate_user_sessions R g1 w numUsers simDays sd target =
      simulate_user_sessions R g2 w numUsers simDays sd target := rfl

/-! ## Mode B loop lemmas -/

theorem sum_map_div (l : List ℚ) (t : ℚ) : (l.map (fun v => v / t)).sum = l.sum / t := by
  induction l with
  | nil => simp
  | cons a as ih => simp [ih, add_div]

theorem simStep_isOk (σ : Type) (R : Rng σ) (games : List String) (probs : List ℚ)
    (userIds : List String) (numUsers simDays : ℕ) (sd : StartDate) (target i : ℕ) (g : σ)
    (h10 : target / 10 ≠ 0) (hu : numUsers ≠ 0) (hp : probsValid probs) (hd : simDays ≠ 0) :
    ∃ rg, simStep R games probs userIds numUsers simDays sd target i g = .ok rg := by
  simp only [simStep, if_neg h10, if_neg hu, if_neg (not_not_intro hp), if_neg hd]
  exact ⟨_, rfl⟩

theorem simBAux_ok (σ : Type) (R : Rng σ) (games : List String) (probs : List ℚ)
    (userIds : List String) (numUsers simDays : ℕ) (sd : StartDate) (target : ℕ)
    (h10 : target / 10 ≠ 0) (hu : numUsers ≠ 0) (hp : probsValid probs) (hd : simDays ≠ 0) :
    ∀ n i g, ∃ l, simBAux R games probs userIds numUsers simDays sd target i n g = .ok l ∧
      l.length = n := by
  intro n
  induction n with
  | zero => intro i g; exact ⟨[], rfl, rfl⟩
  | succ k ih =>
    intro i g
    obtain ⟨rg, hrg⟩ := simStep_isOk σ R games probs userIds numUsers simDays sd target i g
      h10 hu hp hd
    obtain ⟨l, hl, hlen⟩ := ih (i + 1) rg.2
    refine ⟨rg.1 :: l, ?_, by simp [hlen]⟩
    rw [simBAux, hrg]
    simp [hl]

/-- **C10**: with a non-empty weight mapping and `1 ≤ target ≤ 9`, the
progress-logging expression `(i + 1) % (target_session_count // 10)` of the
Mode B loop divides by `target // 10 = 0` on the first iteration, so
`_simulate_user_sessions` raises `ZeroDivisionError` instead of returning
sessions; the loop body is never entered for `target = 0`, and for
`target ≥ 10` (with a usable user pool, window and weights) the simulation
terminates normally with exactly `target` sessions. -/
theorem mode_b_progress_divzero (σ : Type) (R : Rng σ) (g : σ)
    (w : List (String × ℚ)) (numUsers simDays : ℕ) (sd : StartDate) (target : ℕ)
    (hw : w ≠ []) :
    (1 ≤ target → target ≤ 9 →
      simulate_user_sessions R g w numUsers simDays sd target = .error "ZeroDivisionError") ∧
    (target = 0 → simulate_user_sessions R g w numUsers simDays sd target = .ok []) ∧
    (10 ≤ target → 0 < numUsers → 0 < simDays →
      (∀ x ∈ w, 0 ≤ x.2) → 0 < (w.map Prod.snd).sum →
      ∃ l, simulate_user_sessions R g w numUsers simDays sd target = .ok l ∧
        l.length = target) := by
  refine ⟨?_, ?_, ?_⟩
  · intro h1 h9
    rw [simulate_user_sessions, if_neg hw]
    obtain ⟨k, rfl⟩ : ∃ k, target = k + 1 := ⟨target - 1, by omega⟩
    rw [simBAux]
    have hdiv : (k + 1) / 10 = 0 := Nat.div_eq_of_lt (by omega)
    rw [simStep, if_pos hdiv]
  · intro h0
    rw [simulate_user_sessions, if_neg hw, h0]
    rfl
  · intro h10 hu hd hwpos hsum
    rw [simulate_user_sessions, if_neg hw]
    have hp : probsValid ((w.map Prod.snd).map (fun v => v / (w.map Prod.snd).sum)) := by
      constructor
      · intro q hq
        obtain ⟨v, hv, rfl⟩ := List.mem_map.mp hq
        obtain ⟨x, hx, rfl⟩ := List.mem_map.mp hv
        exact div_nonneg (hwpos x hx) (le_of_lt hsum)
      · rw [sum_map_div]
        exact div_self (ne_of_gt hsum)
    obtain ⟨l, hl, hlen⟩ := simBAux_ok σ R (w.map Prod.fst)
      ((w.map Prod.snd).map (fun v => v / (w.map Prod.snd).sum))
      ((List.range numUsers).map (fun i => userB (i + 1))) numUsers simDays sd target
      (by omega) (by omega) hp (by omega) target 0 (R.seed 42)
    exact ⟨l, hl, hlen⟩

/-- Witness for the progress-logging division-by-zero theorem: the concrete
run with target 3 raises `ZeroDivisionError`; the same configuration with
target 10 terminates normally. -/
theorem mode_b_progress_divzero_witness :
    simulate_user_sessions cxRng 0 [("GameA", 1)] 1 7 ⟨0, 0⟩ 3 = .error "ZeroDivisionError" ∧
    (simulate_user_sessions cxRng 0 [("GameA", 1)] 1 7 ⟨0, 0⟩ 10).isOk = true := by
  have h3 := mode_b_progress_divzero ℕ cxRng 0 [("GameA", 1)] 1 7 ⟨0, 0⟩ 3 (by simp)
  have h10 := mode_b_progress_divzero ℕ cxRng 0 [("GameA", 1)] 1 7 ⟨0, 0⟩ 10 (by simp)
  refine ⟨h3.1 (by omega) (by omega), ?_⟩
  obtain ⟨l, hl, _⟩ := h10.2.2 (by omega) (by omega) (by omega)
    (by
      intro x hx
      simp only [List.mem_singleton] at hx
      rw [hx]
      norm_num)
    (by
      simp only [List.map_cons, List.map_nil, List.sum_cons, List.sum_nil]
      norm_num)
  rw [hl]
  rfl

/-! ## User-identifier lemmas -/

theorem decodeDigits_append_one (l : List Char) (c : Char) :
    decodeDigits (l ++ [c]) = 10 * decodeDigits l + digitVal c := by
  rw [decodeDigits, decodeDigits, List.foldl_append]
  rfl

theorem digitVal_digitChar10 (n : ℕ) (h : n < 10) : digitVal (digitChar10 n) = n := by
  interval_cases n <;> decide

theorem decode_natCharsGo (f : ℕ) : ∀ n, n < f → decodeDigits (natCharsGo f n) = n := by
  induction f with
  | zero => intro n h; omega
  | succ f ih =>
    intro n h
    rw [natCharsGo]
    by_cases h10 : n < 10
    · rw [if_pos h10]
      simp [decodeDigits, digitVal_digitChar10 n h10]
    · rw [if_neg h10]
      rw [decodeDigits_append_one, ih (n / 10) (by omega), digitVal_digitChar10 (n % 10) (by omega)]
      omega

theorem decode_natChars (n : ℕ) : decodeDigits (natChars n) = n :=
  decode_natCharsGo (n + 1) n (by omega)

theorem natChars_injective (a b : ℕ) (h : natChars a = natChars b) : a = b := by
  have h1 := decode_natChars a
  rw [h, decode_natChars b] at h1
  omega

theorem userA_injective (a b : ℕ) (h : userA a = userA b) : a = b := by
  have h2 : "user_".data ++ natChars a = "user_".data ++ natChars b := by
    have h3 := congrArg String.data h
    simpa [userA] using h3
  exact natChars_injective a b (List.append_cancel_left h2)

theorem genSessionsA_users (σ : Type) (R : Rng σ) (cfg : ConfigA) (gname : String) (date : ℤ) :
    ∀ n c g,
      ((genSessionsA R cfg gname date n c g).1.map SessionRecA.user_id =
        (List.range n).map (fun k => userA (c + k + 1))) ∧
      (genSessionsA R cfg gname date n c g).2.1 = c + n := by
  intro n
  induction n with
  | zero => intro c g; exact ⟨rfl, rfl⟩
  | succ k ih =>
    intro c g
    constructor
    · simp only [genSessionsA, List.map_cons]
      rw [(ih (c + 1) _).1, List.range_succ_eq_map, List.map_cons, List.map_map]
      congr 1
      apply List.map_congr_left
      intro j hj
      show userA (c + 1 + j + 1) = userA (c + (j + 1) + 1)
      congr 1
      omega
    · simp only [genSessionsA]
      rw [(ih (c + 1) _).2]
      omega

theorem modeARow_users (σ : Type) (R : Rng σ) (cfg : ConfigA) (row : DailyRow) (c : ℕ) (g : σ) :
    ∃ m, ((modeARow R cfg row c g).1.map SessionRecA.user_id =
      (List.range m).map (fun k => userA (c + k + 1))) ∧
      (modeARow R cfg row c g).2.1 = c + m := by
  rw [modeARow]
  by_cases h : row.hours_played ≤ 0
  · rw [if_pos h]
    exact ⟨0, rfl, rfl⟩
  · rw [if_neg h]
    exact ⟨_, (genSessionsA_users σ R cfg row.game_name row.date _ c _).1,
      (genSessionsA_users σ R cfg row.game_name row.date _ c _).2⟩

theorem modeASessions_users (σ : Type) (R : Rng σ) (cfg : ConfigA) :
    ∀ (rows : List DailyRow) (c : ℕ) (g : σ),
      ∃ m, ((modeASessions R cfg rows c g).1.map SessionRecA.user_id =
        (List.range m).map (fun k => userA (c + k + 1))) ∧
        (modeASessions R cfg rows c g).2.1 = c + m := by
  intro rows
  induction rows with
  | nil => intro c g; exact ⟨0, rfl, rfl⟩
  | cons r rs ih =>
    intro c g
    obtain ⟨m1, h1, h2⟩ := modeARow_users σ R cfg r c g
    obtain ⟨m2, h3, h4⟩ := ih (c + m1) (modeARow R cfg r c g).2.2
    refine ⟨m1 + m2, ?_, ?_⟩
    · simp only [modeASessions, List.map_append]
      rw [h1, h2, h3, List.range_add, List.map_append, List.map_map]
      congr 1
      apply List.map_congr_left
      intro j hj
      show userA (c + m1 + j + 1) = userA (c + (m1 + j) + 1)
      congr 1
      omega
    · simp only [modeASessions]
      rw [h2, h4]
      omega

theorem simStep_user (σ : Type) (R : Rng σ) (games : List String) (probs : List ℚ)
    (userIds : List String) (numUsers simDays : ℕ) (sd : StartDate) (target i : ℕ)
    (g : σ) (rg : SessionRecB × σ)
    (h : simStep R games probs userIds numUsers simDays sd target i g = .ok rg) :
    numUsers ≠ 0 ∧ rg.1.user_id = userIds.getD (R.choiceIdx g numUsers).1 "" := by
  simp only [simStep] at h
  by_cases h1 : target / 10 = 0
  · rw [if_pos h1] at h
    exact absurd h (by simp)
  rw [if_neg h1] at h
  by_cases h2 : numUsers = 0
  · rw [if_pos h2] at h
    exact absurd h (by simp)
  rw [if_neg h2] at h
  by_cases h3 : probsValid probs
  · rw [if_neg (not_not_intro h3)] at h
    by_cases h4 : simDays = 0
    · rw [if_pos h4] at h
      exact absurd h (by simp)
    · rw [if_neg h4] at h
      refine ⟨h2, ?_⟩
      have h5 := (Except.ok.injEq _ _).mp h
      rw [← h5]
  · rw [if_pos h3] at h
    exact absurd h (by simp)

theorem simBAux_user_mem (σ : Type) (R : Rng σ) (games : List String) (probs : List ℚ)
    (userIds : List String) (numUsers simDays : ℕ) (sd : StartDate) (target : ℕ)
    (hlen : userIds.length = numUsers) :
    ∀ n i g l, simBAux R games probs userIds numUsers simDays sd target i n g = .ok l →
      ∀ r ∈ l, r.user_id ∈ userIds := by
  intro n
  induction n with
  | zero =>
    intro i g l h r hr
    have h0 : l = [] := ((Except.ok.injEq _ _).mp h).symm
    rw [h0] at hr
    simp at hr
  | succ k ih =>
    intro i g l h r hr
    rw [simBAux] at h
    cases hstep : simStep R games probs userIds numUsers simDays sd target i g with
    | error e =>
      simp only [hstep] at h
      simp at h
    | ok rg =>
      simp only [hstep] at h
      cases hrec : simBAux R games probs userIds numUsers simDays sd target (i + 1) k rg.2 with
      | error e =>
        simp only [hrec] at h
        simp at h
      | ok rs =>
        simp only [hrec, Except.ok.injEq] at h
        rw [← h] at hr
        rcases List.mem_cons.mp hr with he | he
        · obtain ⟨hnz, huid⟩ := simStep_user σ R games probs userIds numUsers simDays sd
            target i g rg hstep
          rw [he, huid]
          have hlt : (R.choiceIdx g numUsers).1 < userIds.length := by
            rw [hlen]
            exact R.choiceIdx_lt g numUsers (Nat.pos_of_ne_zero hnz)
          rw [List.getD_eq_getElem _ _ hlt]
          exact List.getElem_mem _
        · exact ih (i + 1) rg.2 rs hrec r he

/-- **C4 amended**: Mode A (`src/simulate_sessions.py`) mints a fresh
`user_{counter}` identifier per session from a monotonically increasing
counter, so in its synthesized session set each user_id occurs in at most
one record; Mode B (`_simulate_user_sessions`) instead draws every session's
user from the fixed pool `USER_0001 … USER_{n:04d}` — each record's user_id
lies in that pool and identifiers are reused across sessions (see the
counterexample), so the claimed freshness holds in Mode A only. -/
theorem user_freshness (σ : Type) (R : Rng σ) (cfg : ConfigA) (rows : List DailyRow) (g0 : σ)
    (w : List (String × ℚ)) (numUsers simDays : ℕ) (sd : StartDate) (target : ℕ) :
    ((modeASessions R cfg rows 0 g0).1.map SessionRecA.user_id).Nodup ∧
    (∀ l r, simulate_user_sessions R g0 w numUsers simDays sd target = .ok l → r ∈ l →
      r.user_id ∈ (List.range numUsers).map (fun i => userB (i + 1))) := by
  constructor
  · obtain ⟨m, h1, _⟩ := modeASessions_users σ R cfg rows 0 g0
    rw [h1]
    refine List.Nodup.map ?_ (List.nodup_range m)
    intro a b hab
    have := userA_injective (0 + a + 1) (0 + b + 1) hab
    omega
  · intro l r hok hr
    rw [simulate_user_sessions] at hok
    by_cases hw : w = []
    · rw [if_pos hw] at hok
      have h0 : l = [] := ((Except.ok.injEq _ _).mp hok).symm
      rw [h0] at hr
      simp at hr
    · rw [if_neg hw] at hok
      exact simBAux_user_mem σ R _ _ _ numUsers simDays sd target (by simp) target 0 _ l
        hok r hr

theorem cx_run_ok : ∃ l, simulate_user_sessions cxRng 0 [("GameA", 1)] 1 7 ⟨0, 0⟩ 10 = .ok l ∧
    l.length = 10 ∧ ∀ r ∈ l, r.user_id = "USER_0001" := by
  have hp : probsValid ([(1:ℚ)].map (fun v => v / ([(1:ℚ)]).sum)) := by
    constructor
    · intro q hq
      simp at hq
      rw [hq]
      norm_num
    · simp
  obtain ⟨l, hl, hlen⟩ := simBAux_ok ℕ cxRng ["GameA"]
    ([(1:ℚ)].map (fun v => v / ([(1:ℚ)]).sum)) [userB 1] 1 7 ⟨0, 0⟩ 10
    (by omega) (by omega) hp (by omega) 10 0 (cxRng.seed 42)
  refine ⟨l, hl, hlen, ?_⟩
  intro r hr
  have hmem := simBAux_user_mem ℕ cxRng ["GameA"]
    ([(1:ℚ)].map (fun v => v / ([(1:ℚ)]).sum)) [userB 1] 1 7 ⟨0, 0⟩ 10 rfl
    10 0 (cxRng.seed 42) l hl r hr
  have h1 : r.user_id = userB 1 := by simpa using hmem
  rw [h1]
  decide

/-- **C4 counterexample**: the claim asserts each user_id occurs in at most
one SessionRecord in both modes; in the Mode B run with one game, a user
pool of size 1 and 10 target sessions, all 10 records carry the same
`"USER_0001"`, so the user-id column of that synthesized set is not
duplicate-free. -/
theorem user_freshness_counterexample :
    cxRunUsers.length = 10 ∧ ¬ cxRunUsers.Nodup := by
  obtain ⟨l, hl, hlen, hall⟩ := cx_run_ok
  have hcx : cxRunUsers = l.map SessionRecB.user_id := by
    simp only [cxRunUsers, hl]
  have hrep : cxRunUsers = List.replicate 10 "USER_0001" := by
    rw [hcx]
    refine List.eq_replicate_iff.mpr ⟨by rw [List.length_map, hlen], ?_⟩
    intro b hb
    obtain ⟨r, hr, rfl⟩ := List.mem_map.mp hb
    exact hall r hr
  rw [hrep]
  constructor
  · simp
  · simp [List.nodup_replicate]

/-- Witness for the amended freshness theorem: its Mode B pool-membership
clause applied to the concrete run behind `cxRunUsers`, whose user pool is
the singleton `USER_0001`. -/
theorem user_freshness_witness : cxRunUsers ⊆ ["USER_0001"] := by
  intro u hu
  obtain ⟨l, hl, hlen, hall⟩ := cx_run_ok
  have hcx : cxRunUsers = l.map SessionRecB.user_id := by
    simp only [cxRunUsers, hl]
  rw [hcx] at hu
  obtain ⟨r, hr, rfl⟩ := List.mem_map.mp hu
  have h := (user_freshness ℕ cxRng ⟨30, 100, 15, 120, 0, 19, 3⟩ [] 0
    [("GameA", 1)] 1 7 ⟨0, 0⟩ 10).2 l r hl hr
  have e : (List.range 1).map (fun i => userB (i + 1)) = ["USER_0001"] := by decide
  rw [e] at h
  exact h
